import Mathlib

/-!
# Load balancer (`cmd/lb/balancer.go`): availability pool, routing, forwarding

A shallow embedding of the balancer's core:

* `removeElement`, `contains` and the body of the probe loop of `main`
  (`probeUpdate`), which maintain `availablePool`;
* `health`, the probe predicate;
* `forward`, the proxy step, over a model of `http.Header` and of a recording
  `http.ResponseWriter`;
* `frontendHandler`, the routing step (`hash % len(availablePool)`).

Go slices of strings are `List String`.  The outcome of `http.DefaultClient.Do`
is an input of the model (a function from the request sent to the pair
`(resp, err)` that Go returns), and so is the seeded 64-bit hash of
`hash/maphash`.  A Go run-time panic is an explicit error value.
-/

namespace Balancer

/-! ## Availability pool -/

/-- The configured backends (`serversPool`, `balancer.go` lines 26-30). -/
def serversPool : List String :=
  ["server1:8080", "server2:8080", "server3:8080"]

/-- One iteration of the loop of `removeElement`: `item` is appended to
`result` when it differs from `value`. -/
def removeElementStep (value : String) (result : List String) (item : String) : List String :=
  if item != value then result ++ [item] else result

/-- The function `removeElement(slice, value)` (`balancer.go` lines 35-43):
`result` starts empty (nil) and the loop runs over `slice` from left to right. -/
def removeElement (slice : List String) (value : String) : List String :=
  slice.foldl (removeElementStep value) []

/-- The function `contains(slice, value)` (`balancer.go` lines 45-52): returns
`true` at the first item equal to `value`, `false` when the loop ends. -/
def contains : List String → String → Bool
  | [], _ => false
  | item :: rest, value => if item == value then true else contains rest value

/-- The body of the probe loop of `main` (`balancer.go` lines 127-134) for
`server`, given the value `available` returned by `health(server)`: the new
value of `availablePool`. -/
def probeUpdate (availablePool : List String) (server : String) (available : Bool) :
    List String :=
  if available then
    if !contains availablePool server then availablePool ++ [server] else availablePool
  else
    removeElement availablePool server

/-- The initial pool built in `main` (`balancer.go` lines 120-121): a fresh
slice of the same length as `serversPool` with its elements copied in. -/
def initialPool : List String :=
  (List.replicate serversPool.length "").zipWith (fun _ s => s) serversPool

/-- The pool after a finite sequence of probe updates, each a pair of the
probed server and the outcome of its probe, applied in order. -/
def runProbes (pool : List String) (probes : List (String × Bool)) : List String :=
  probes.foldl (fun p u => probeUpdate p u.1 u.2) pool

/-- The invariant of the pool: no duplicate, and only configured servers. -/
def PoolInv (config pool : List String) : Prop :=
  pool.Nodup ∧ ∀ x ∈ pool, x ∈ config

/-! ## HTTP data model

The parts of `net/http` that `health`, `forward` and `frontendHandler` use. -/

/-- A Go `error` value that is not nil. -/
structure GoError where
  msg : String
  deriving DecidableEq, Repr

/-- The bytes that may occur in a header field name (`validHeaderFieldByte` of
`net/textproto`): ASCII letters, digits and the token punctuation. -/
def validHeaderFieldByte (c : Char) : Bool :=
  c.isAlphanum || "!#$%&'*+-.^_`|~".toList.contains c

/-- The loop of `canonicalMIMEHeaderKey` in `net/textproto`: the first letter
and every letter after a hyphen is put in upper case, every other letter in
lower case; `upper` says whether the next byte starts a word. -/
def canonicalMIMEHeaderKey : Bool → List Char → List Char
  | _, [] => []
  | upper, c :: rest =>
    let c1 := if upper && c.isLower then c.toUpper
              else if !upper && c.isUpper then c.toLower else c
    c1 :: canonicalMIMEHeaderKey (c1 == '-') rest

/-- The function `textproto.CanonicalMIMEHeaderKey` of the Go standard library,
which `Header.Add`, `Header.Set` and `Header.Values` apply to their key: a key
holding a space or another invalid byte is returned unchanged, any other key is
canonicalised (`accept-encoding` becomes `Accept-Encoding`). -/
def CanonicalMIMEHeaderKey (s : String) : String :=
  if s.toList.all validHeaderFieldByte then
    String.mk (canonicalMIMEHeaderKey true s.toList)
  else s

/-- The type `http.Header`, a `map[string][]string`, as the list of its
entries.  The order of the list stands for the order in which a `range`
statement visits the map. -/
structure Header where
  entries : List (String × List String)
  deriving DecidableEq, Repr

/-- The map read `h[key]` on a list of entries: the values stored under `key`,
the nil slice when there are none. -/
def lookupEntries : List (String × List String) → String → List String
  | [], _ => []
  | (k, vs) :: rest, key => if k == key then vs else lookupEntries rest key

/-- The map write `h[key] = values` on a list of entries. -/
def storeEntries : List (String × List String) → String → List String →
    List (String × List String)
  | [], key, values => [(key, values)]
  | (k, vs) :: rest, key, values =>
    if k == key then (k, values) :: rest else (k, vs) :: storeEntries rest key values

namespace Header

/-- The header map with no entry. -/
def empty : Header := ⟨[]⟩

/-- The raw map read `h[key]`. -/
def lookup (h : Header) (key : String) : List String :=
  lookupEntries h.entries key

/-- The raw map write `h[key] = values`. -/
def store (h : Header) (key : String) (values : List String) : Header :=
  ⟨storeEntries h.entries key values⟩

/-- The method `Header.Add(key, value)`: appends `value` to the values stored
under the canonical form of `key`. -/
def Add (h : Header) (key value : String) : Header :=
  h.store (CanonicalMIMEHeaderKey key) (h.lookup (CanonicalMIMEHeaderKey key) ++ [value])

/-- The method `Header.Set(key, value)`: the canonical form of `key` now holds
the single value `value`. -/
def Set (h : Header) (key value : String) : Header :=
  h.store (CanonicalMIMEHeaderKey key) [value]

/-- The method `Header.Values(key)`: the values stored under the canonical
form of `key`. -/
def Values (h : Header) (key : String) : List String :=
  h.lookup (CanonicalMIMEHeaderKey key)

/-- A header map as Go's HTTP client returns it: the keys of the map are
distinct, and each is in canonical form. -/
def WellFormed (h : Header) : Prop :=
  (h.entries.map Prod.fst).Nodup ∧
  ∀ e ∈ h.entries, CanonicalMIMEHeaderKey e.1 = e.1

end Header

/-- A Go run-time panic raised while a request is handled. -/
inductive Panic where
  | integerDivideByZero
  | indexOutOfRange
  | invalidWriteHeaderCode
  deriving DecidableEq, Repr

/-- The fields of `url.URL` that the balancer reads or writes. -/
structure URL where
  Scheme : String
  Host : String
  Path : String
  RawQuery : String
  deriving DecidableEq, Repr

/-- The fields of `http.Request` that the balancer reads or writes. -/
structure Request where
  Method : String
  URL : URL
  Header : Header
  Body : String
  Host : String
  RequestURI : String
  deriving DecidableEq, Repr

/-- A response body as a reader: the bytes it yields, and the error (if any)
with which reading stops after them. -/
structure ResponseBody where
  data : String
  readErr : Option GoError
  deriving DecidableEq, Repr

/-- The fields of `http.Response` that the balancer reads. -/
structure Response where
  StatusCode : Int
  Header : Header
  Body : ResponseBody
  deriving DecidableEq, Repr

/-- An `http.ResponseWriter` that records what is sent to the client, after
`httptest.ResponseRecorder` (the writer of `TestForward`): `header` is the map
returned by `rw.Header()`, and the first `WriteHeader` commits the status code
together with the headers as they are at that moment (`sentHeader`); later
changes of `header` are not sent. -/
structure ResponseWriter where
  header : Header
  wroteHeader : Bool
  statusCode : Int
  sentHeader : Header
  body : String
  deriving DecidableEq, Repr

namespace ResponseWriter

/-- A response writer as a handler receives it: no header set, nothing sent. -/
def fresh : ResponseWriter :=
  { header := Header.empty, wroteHeader := false, statusCode := 0,
    sentHeader := Header.empty, body := "" }

/-- The step that commits the status line: when nothing was sent yet, the
status code and the current headers are recorded as sent; otherwise nothing
changes. -/
def commit (rw : ResponseWriter) (code : Int) : ResponseWriter :=
  if rw.wroteHeader then rw
  else { rw with wroteHeader := true, statusCode := code, sentHeader := rw.header }

/-- The method `WriteHeader(code)`: a call after the status was sent changes
nothing; otherwise the code is checked (`checkWriteHeaderCode` of `net/http`
panics with `invalid WriteHeader code` for a code below 100 or above 999) and
the status line is committed. -/
def WriteHeader (rw : ResponseWriter) (code : Int) : Except Panic ResponseWriter :=
  if rw.wroteHeader then Except.ok rw
  else if code < 100 ∨ 999 < code then Except.error Panic.invalidWriteHeaderCode
  else Except.ok (rw.commit code)

/-- The method `Write(data)`: commits the `200` status first when no status was
sent yet, then sends the bytes. -/
def Write (rw : ResponseWriter) (data : String) : ResponseWriter :=
  let rw1 := rw.commit 200
  { rw1 with body := rw1.body ++ data }

end ResponseWriter

/-- The call `io.Copy(rw, body)`: the bytes of the body are written to `rw`;
the error returned is the one reading the body ended with. -/
def ioCopy (rw : ResponseWriter) (body : ResponseBody) : ResponseWriter × Option GoError :=
  (if body.data.isEmpty then rw else rw.Write body.data, body.readErr)

/-- The process-wide values the handlers read: the two flags, the hash of
`hash/maphash` under the seed made once at start-up (`sum64 p` is the result of
`SetSeed(seed); WriteString(p); Sum64()`), and `http.DefaultClient.Do`, which
maps the request sent to the pair `(resp, err)` it returns (a transport failure
or an expired deadline is a non-nil `err`). -/
structure Globals where
  https : Bool
  traceEnabled : Bool
  sum64 : String → Nat
  Do : Request → Response × Option GoError

/-! ## Health probe, forwarding, routing -/

/-- The function `scheme()` (`balancer.go` lines 54-59). -/
def scheme (g : Globals) : String :=
  if g.https then "https" else "http"

/-- The request built by `health` (`balancer.go` lines 63-64): a `GET` of
`scheme://dst/health` with no body.  The address `dst` is a `host:port` string,
for which `http.NewRequestWithContext` returns a request. -/
def healthRequest (g : Globals) (dst : String) : Request :=
  { Method := "GET",
    URL := { Scheme := scheme g, Host := dst, Path := "/health", RawQuery := "" },
    Header := Header.empty, Body := "", Host := dst, RequestURI := "" }

/-- The function `health(dst)` (`balancer.go` lines 61-73). -/
def health (g : Globals) (dst : String) : Bool :=
  let (resp, err) := g.Do (healthRequest g dst)
  if err != none then false
  else if resp.StatusCode != 200 then false
  else true

/-- One full iteration of the probe loop of `main` for `server`
(`balancer.go` lines 127-134): the probe, then the update of the pool. -/
def probeIteration (g : Globals) (availablePool : List String) (server : String) :
    List String :=
  probeUpdate availablePool server (health g server)

/-- The outbound request of `forward` (`balancer.go` lines 77-81): a clone of
the inbound request with `RequestURI` cleared and host and scheme rewritten. -/
def forwardRequest (g : Globals) (dst : String) (r : Request) : Request :=
  { r with RequestURI := "",
           URL := { r.URL with Host := dst, Scheme := scheme g },
           Host := dst }

/-- The two nested loops of `forward` (`balancer.go` lines 85-89): every value
of every entry of the upstream header map is added to the headers of `rw`. -/
def copyHeaders (upstream : List (String × List String)) (h : Header) : Header :=
  upstream.foldl (fun acc e => e.2.foldl (fun acc2 value => acc2.Add e.1 value) acc) h

/-- The function `forward(dst, rw, r)` (`balancer.go` lines 75-105): the
response writer after the call and the error returned (`none` is nil), or the
panic raised by `rw.WriteHeader`.  The deadline set at line 76 (always 3 s:
`timeout` is computed at line 25, before `flag.Parse`) bears only on the
outcome of `Do`, an input here.  The log lines are not part of the model. -/
def forward (g : Globals) (dst : String) (rw : ResponseWriter) (r : Request) :
    Except Panic (ResponseWriter × Option GoError) :=
  let (resp, err) := g.Do (forwardRequest g dst r)
  match err with
  | none =>
    let rw1 := { rw with header := copyHeaders resp.Header.entries rw.header }
    let rw2 := if g.traceEnabled then { rw1 with header := rw1.header.Set "lb-from" dst }
               else rw1
    match rw2.WriteHeader resp.StatusCode with
    | Except.error p => Except.error p
    | Except.ok rw3 =>
      let (rw4, _) := ioCopy rw3 resp.Body
      Except.ok (rw4, none)
  | some e =>
    match rw.WriteHeader 503 with
    | Except.error p => Except.error p
    | Except.ok rw1 => Except.ok (rw1, some e)

/-- The index computed by `frontendHandler` (`balancer.go` lines 108-111):
`h.Sum64() % uint64(len(availablePool))`.  The hash is a 64-bit value; a
division by zero is a run-time panic in Go. -/
def routingIndex (g : Globals) (availablePool : List String) (r : Request) :
    Except Panic Nat :=
  if availablePool.length = 0 then Except.error Panic.integerDivideByZero
  else Except.ok ((g.sum64 r.URL.Path % 2 ^ 64) % availablePool.length)

/-- The backend that `frontendHandler` passes to `forward`
(`balancer.go` line 112): `availablePool[target]`, a panic when the index is
out of range. -/
def selectBackend (g : Globals) (availablePool : List String) (r : Request) :
    Except Panic String :=
  match routingIndex g availablePool r with
  | Except.error p => Except.error p
  | Except.ok target =>
    match availablePool[target]? with
    | none => Except.error Panic.indexOutOfRange
    | some dst => Except.ok dst

/-- The handler `frontendHandler` (`balancer.go` lines 107-116): the response
writer after the request was handled, or the panic that ended the handler. -/
def frontendHandler (g : Globals) (availablePool : List String) (rw : ResponseWriter)
    (r : Request) : Except Panic ResponseWriter :=
  match selectBackend g availablePool r with
  | Except.error p => Except.error p
  | Except.ok dst =>
    match forward g dst rw r with
    | Except.error p => Except.error p
    | Except.ok (rw1, _) => Except.ok rw1

/-- What the claim on relayed headers asks of the headers sent to the client:
every key of the upstream map that is not the `lb-from` header holds exactly
the upstream values of that key, in order.  Header names are compared and
looked up in canonical form, as `Header.Values` does. -/
def HeadersRelayed (upstream sent : Header) : Prop :=
  ∀ e ∈ upstream.entries,
    CanonicalMIMEHeaderKey e.1 ≠ CanonicalMIMEHeaderKey "lb-from" →
      sent.Values e.1 = e.2

/-! ## Concrete inputs used by the closed statements -/

/-- A stand-in for the seeded hash: the length of the path. -/
def sampleSum64 (p : String) : Nat := p.length

/-- An inbound request: `GET /api/v1/some-data?x=1`. -/
def sampleRequest : Request :=
  { Method := "GET",
    URL := { Scheme := "", Host := "", Path := "/api/v1/some-data", RawQuery := "x=1" },
    Header := Header.empty, Body := "", Host := "balancer:8090",
    RequestURI := "/api/v1/some-data?x=1" }

/-- Another inbound request with the same path and a different method, query
string, header and body. -/
def sampleRequestPost : Request :=
  { Method := "POST",
    URL := { Scheme := "", Host := "", Path := "/api/v1/some-data", RawQuery := "page=2" },
    Header := ⟨[("Content-Type", ["text/plain"])]⟩, Body := "payload",
    Host := "balancer:8090", RequestURI := "/api/v1/some-data?page=2" }

/-- An upstream that answers `200` with the header `X-Test: value`, as in
`TestForward`. -/
def okClient (_ : Request) : Response × Option GoError :=
  ({ StatusCode := 200, Header := ⟨[("X-Test", ["value"])]⟩,
     Body := { data := "", readErr := none } }, none)

/-- An upstream that cannot be reached: the client returns an error, as in
the `forward error` case of `TestForward`. -/
def failingClient (_ : Request) : Response × Option GoError :=
  ({ StatusCode := 0, Header := Header.empty, Body := { data := "", readErr := none } },
   some ⟨"http: Handler timeout"⟩)

/-- An upstream that answers `200` with two values of `X-Test` and with an
`Lb-From` header of its own. -/
def tracedClient (_ : Request) : Response × Option GoError :=
  ({ StatusCode := 200,
     Header := ⟨[("X-Test", ["value", "other"]), ("Lb-From", ["spoofed"])]⟩,
     Body := { data := "hello", readErr := none } }, none)

/-- An upstream whose status line is `HTTP/1.1 099`: the client returns the
response with status code 99 and no error. -/
def status99Client (_ : Request) : Response × Option GoError :=
  ({ StatusCode := 99, Header := ⟨[("X-Test", ["value"])]⟩,
     Body := { data := "", readErr := none } }, none)

/-- Globals with tracing enabled, plain HTTP and the given client. -/
def sampleGlobals (client : Request → Response × Option GoError) : Globals :=
  { https := false, traceEnabled := true, sum64 := sampleSum64, Do := client }

/-! ### Lemmas on `removeElement` and `contains` -/

theorem removeElement_foldl_eq (value : String) (slice acc : List String) :
    slice.foldl (removeElementStep value) acc
      = acc ++ slice.filter (fun item => item != value) := by
  induction slice generalizing acc with
  | nil => simp
  | cons item rest ih =>
    rw [List.foldl_cons, ih]
    by_cases h : item = value
    · simp [removeElementStep, h]
    · simp [removeElementStep, h, List.filter_cons]

theorem removeElement_eq_filter (slice : List String) (value : String) :
    removeElement slice value = slice.filter (fun item => item != value) := by
  simp [removeElement, removeElement_foldl_eq]

theorem contains_eq_true_iff (slice : List String) (value : String) :
    contains slice value = true ↔ value ∈ slice := by
  induction slice with
  | nil => simp [contains]
  | cons item rest ih =>
    by_cases h : item = value
    · simp [contains, h]
    · have h2 : ¬ value = item := fun e => h e.symm
      simp [contains, h, h2, ih]

theorem mem_removeElement (slice : List String) (value x : String) :
    x ∈ removeElement slice value ↔ x ∈ slice ∧ x ≠ value := by
  simp [removeElement_eq_filter, List.mem_filter]

theorem initialPool_eq : initialPool = serversPool := by
  decide

theorem probeUpdate_inv (config pool : List String) (server : String) (available : Bool)
    (hs : server ∈ config) (h : PoolInv config pool) :
    PoolInv config (probeUpdate pool server available) := by
  obtain ⟨hnd, hsub⟩ := h
  cases available with
  | false =>
    simp only [probeUpdate, Bool.false_eq_true, if_false]
    rw [removeElement_eq_filter]
    exact ⟨hnd.filter _, fun x hx => hsub x (List.mem_filter.mp hx).1⟩
  | true =>
    simp only [probeUpdate, if_true]
    by_cases hc : contains pool server = true
    · simp only [hc, Bool.not_true, Bool.false_eq_true, if_false]
      exact ⟨hnd, hsub⟩
    · have hnot : server ∉ pool := fun hm => hc ((contains_eq_true_iff pool server).mpr hm)
      simp only [Bool.not_eq_true] at hc
      simp only [hc, Bool.not_false, if_true]
      refine ⟨?_, ?_⟩
      · rw [List.nodup_append]
        refine ⟨hnd, List.nodup_singleton server, ?_⟩
        intro a ha hb
        rw [List.mem_singleton] at hb
        exact hnot (hb ▸ ha)
      · intro x hx
        rcases List.mem_append.mp hx with hx | hx
        · exact hsub x hx
        · rw [List.mem_singleton] at hx
          exact hx ▸ hs

theorem runProbes_inv (config : List String) (probes : List (String × Bool)) :
    ∀ pool : List String, (∀ u ∈ probes, u.1 ∈ config) → PoolInv config pool →
      PoolInv config (runProbes pool probes) := by
  induction probes with
  | nil => intro pool _ h; exact h
  | cons u rest ih =>
    intro pool hcfg h
    have hu : u.1 ∈ config := hcfg u (List.mem_cons_self u rest)
    have hrest : ∀ v ∈ rest, v.1 ∈ config := fun v hv => hcfg v (List.mem_cons_of_mem u hv)
    exact ih (probeUpdate pool u.1 u.2) hrest (probeUpdate_inv config pool u.1 u.2 hu h)

theorem serversPool_inv : PoolInv serversPool serversPool :=
  ⟨by decide, fun _ hx => hx⟩

/-! ### Lemmas on the header map -/

theorem lookupEntries_storeEntries (es : List (String × List String))
    (key : String) (values : List String) (c : String) :
    lookupEntries (storeEntries es key values) c
      = if c = key then values else lookupEntries es c := by
  induction es with
  | nil =>
    by_cases h : c = key
    · simp [storeEntries, lookupEntries, h]
    · have h2 : ¬ key = c := fun e => h e.symm
      simp [storeEntries, lookupEntries, h, h2]
  | cons e rest ih =>
    obtain ⟨k, vs⟩ := e
    by_cases hk : k = key
    · by_cases h : c = key
      · simp [storeEntries, lookupEntries, hk, h]
      · have h2 : ¬ key = c := fun e => h e.symm
        simp [storeEntries, lookupEntries, hk, h, h2]
    · by_cases hc : k = c
      · have h : ¬ c = key := fun e => hk (hc.trans e)
        simp [storeEntries, lookupEntries, hk, hc, h]
      · simp [storeEntries, lookupEntries, hk, hc, ih]

theorem Header.lookup_store (h : Header) (key : String) (values : List String) (c : String) :
    (h.store key values).lookup c = if c = key then values else h.lookup c := by
  simp [Header.store, Header.lookup, lookupEntries_storeEntries]

theorem Header.lookup_Add (h : Header) (key value c : String) :
    (h.Add key value).lookup c
      = if c = CanonicalMIMEHeaderKey key then h.lookup c ++ [value] else h.lookup c := by
  unfold Header.Add
  rw [Header.lookup_store]
  by_cases hc : c = CanonicalMIMEHeaderKey key
  · simp [hc]
  · simp [hc]

theorem Header.lookup_addValues (key : String) (values : List String) :
    ∀ (h : Header) (c : String),
      (values.foldl (fun acc value => acc.Add key value) h).lookup c
        = if c = CanonicalMIMEHeaderKey key then h.lookup c ++ values else h.lookup c := by
  induction values with
  | nil => intro h c; simp
  | cons v rest ih =>
    intro h c
    rw [List.foldl_cons, ih, Header.lookup_Add]
    by_cases hc : c = CanonicalMIMEHeaderKey key
    · simp [hc]
    · simp [hc]

theorem copyHeaders_cons (e : String × List String) (rest : List (String × List String))
    (h : Header) :
    copyHeaders (e :: rest) h
      = copyHeaders rest (e.2.foldl (fun acc value => acc.Add e.1 value) h) := by
  simp [copyHeaders]

theorem copyHeaders_lookup_other (c : String) (es : List (String × List String)) :
    ∀ h : Header, (∀ e ∈ es, CanonicalMIMEHeaderKey e.1 ≠ c) →
      (copyHeaders es h).lookup c = h.lookup c := by
  induction es with
  | nil => intro h _; simp [copyHeaders]
  | cons e rest ih =>
    intro h hne
    have he : ¬ c = CanonicalMIMEHeaderKey e.1 :=
      fun eq => hne e (List.mem_cons_self e rest) eq.symm
    rw [copyHeaders_cons, ih _ (fun x hx => hne x (List.mem_cons_of_mem e hx)),
      Header.lookup_addValues]
    simp [he]

theorem copyHeaders_lookup_mem (es : List (String × List String)) :
    ∀ h : Header, (es.map (fun e => CanonicalMIMEHeaderKey e.1)).Nodup →
      ∀ e ∈ es, (copyHeaders es h).lookup (CanonicalMIMEHeaderKey e.1)
        = h.lookup (CanonicalMIMEHeaderKey e.1) ++ e.2 := by
  induction es with
  | nil => intro h _ e he; cases he
  | cons e0 rest ih =>
    intro h hnd e he
    rw [List.map_cons, List.nodup_cons] at hnd
    obtain ⟨hnot, hrest⟩ := hnd
    rw [copyHeaders_cons]
    rcases List.mem_cons.mp he with heq | hmem
    · subst heq
      have hother : ∀ x ∈ rest, CanonicalMIMEHeaderKey x.1 ≠ CanonicalMIMEHeaderKey e.1 := by
        intro x hx eq
        exact hnot (List.mem_map.mpr ⟨x, hx, eq⟩)
      rw [copyHeaders_lookup_other _ rest _ hother, Header.lookup_addValues]
      simp
    · have hne : ¬ CanonicalMIMEHeaderKey e.1 = CanonicalMIMEHeaderKey e0.1 := by
        intro eq
        exact hnot (List.mem_map.mpr ⟨e, hmem, eq⟩)
      rw [ih _ hrest e hmem, Header.lookup_addValues]
      simp [hne]

theorem ioCopy_sent (rw : ResponseWriter) (body : ResponseBody) (hw : rw.wroteHeader = true) :
    (ioCopy rw body).1.wroteHeader = true ∧
    (ioCopy rw body).1.statusCode = rw.statusCode ∧
    (ioCopy rw body).1.sentHeader = rw.sentHeader := by
  unfold ioCopy
  by_cases hb : body.data.isEmpty = true
  · simp [hb, hw]
  · simp [hb, ResponseWriter.Write, ResponseWriter.commit, hw]

theorem ResponseWriter.WriteHeader_valid (rw : ResponseWriter) (code : Int)
    (hw : rw.wroteHeader = false) (hlo : 100 ≤ code) (hhi : code ≤ 999) :
    rw.WriteHeader code = Except.ok (rw.commit code) := by
  have h : ¬ (code < 100 ∨ 999 < code) := by omega
  simp [ResponseWriter.WriteHeader, hw, h]

theorem Header.WellFormed.canonical_nodup (h : Header) (hH : h.WellFormed) :
    (h.entries.map (fun e => CanonicalMIMEHeaderKey e.1)).Nodup := by
  obtain ⟨hnd, hcanon⟩ := hH
  have heq : h.entries.map (fun e => CanonicalMIMEHeaderKey e.1)
      = h.entries.map Prod.fst := by
    apply List.map_congr_left
    intro e he
    exact hcanon e he
  rw [heq]
  exact hnd

theorem forward_ok_eq (g : Globals) (dst : String) (r : Request) (resp : Response)
    (hdo : g.Do (forwardRequest g dst r) = (resp, none))
    (hlo : 100 ≤ resp.StatusCode) (hhi : resp.StatusCode ≤ 999) (hdr : Header)
    (hhdr : hdr = if g.traceEnabled = true
      then (copyHeaders resp.Header.entries Header.empty).Set "lb-from" dst
      else copyHeaders resp.Header.entries Header.empty) :
    forward g dst ResponseWriter.fresh r
      = Except.ok ((ioCopy (ResponseWriter.commit
          { ResponseWriter.fresh with header := hdr } resp.StatusCode) resp.Body).1,
          none) := by
  subst hhdr
  cases ht : g.traceEnabled with
  | false =>
    have hwh := ResponseWriter.WriteHeader_valid
      { ResponseWriter.fresh with header := copyHeaders resp.Header.entries Header.empty }
      resp.StatusCode rfl hlo hhi
    simp only [forward, hdo, ht, Bool.false_eq_true, if_false]
    have hf : ResponseWriter.fresh.header = Header.empty := rfl
    rw [hf, hwh]
  | true =>
    have hwh := ResponseWriter.WriteHeader_valid
      { ResponseWriter.fresh with
          header := (copyHeaders resp.Header.entries Header.empty).Set "lb-from" dst }
      resp.StatusCode rfl hlo hhi
    simp only [forward, hdo, ht, if_true]
    have hf : ResponseWriter.fresh.header = Header.empty := rfl
    rw [hf, hwh]

/-! ## Routing -/

/-- Claim C1, evaluated on the code: with an empty available pool the handler
does not answer with a 503 response; for every request the computation
`h.Sum64() % uint64(len(availablePool))` divides by zero and the handler ends
in a run-time panic before anything is written. -/
theorem frontendHandler_empty_pool_panics (g : Globals) (rw : ResponseWriter) (r : Request) :
    frontendHandler g [] rw r = Except.error Panic.integerDivideByZero := by
  simp [frontendHandler, selectBackend, routingIndex]

/-- Claim C2: for every request and every available pool of length at least 1,
the index computed by the handler is the 64-bit hash of the path modulo the
length, it is below the length, the lookup `availablePool[target]` succeeds,
and the handler forwards the request to that element of the pool. -/
theorem frontendHandler_index_in_range (g : Globals) (availablePool : List String)
    (rw : ResponseWriter) (r : Request) (hN : 1 ≤ availablePool.length) :
    ∃ target dst,
      routingIndex g availablePool r = Except.ok target ∧
      target = (g.sum64 r.URL.Path % 2 ^ 64) % availablePool.length ∧
      target < availablePool.length ∧
      availablePool[target]? = some dst ∧
      dst ∈ availablePool ∧
      selectBackend g availablePool r = Except.ok dst ∧
      frontendHandler g availablePool rw r = (forward g dst rw r).map Prod.fst ∧
      (forwardRequest g dst r).URL.Host = dst := by
  have hpos : 0 < availablePool.length := hN
  have hne : ¬ availablePool.length = 0 := Nat.pos_iff_ne_zero.mp hpos
  have hlt : (g.sum64 r.URL.Path % 2 ^ 64) % availablePool.length < availablePool.length :=
    Nat.mod_lt _ hpos
  have hget : availablePool[(g.sum64 r.URL.Path % 2 ^ 64) % availablePool.length]?
      = some (availablePool.get ⟨_, hlt⟩) := by
    rw [List.getElem?_eq_getElem hlt]; rfl
  refine ⟨_, availablePool.get ⟨_, hlt⟩, ?_, rfl, hlt, hget, List.get_mem _ _ _, ?_, ?_, rfl⟩
  · simp [routingIndex, hne]
  · simp only [selectBackend, routingIndex, hne, if_false, hget]
  · simp only [frontendHandler, selectBackend, routingIndex, hne, if_false, hget]
    cases forward g (availablePool.get ⟨_, hlt⟩) rw r with
    | error p => rfl
    | ok out => rfl

/-- Witness of C2 on the full configured pool. -/
theorem frontendHandler_index_in_range_witness :
    1 ≤ serversPool.length ∧
    ∃ target dst,
      routingIndex (sampleGlobals okClient) serversPool sampleRequest = Except.ok target ∧
      target = ((sampleGlobals okClient).sum64 sampleRequest.URL.Path % 2 ^ 64)
        % serversPool.length ∧
      target < serversPool.length ∧
      serversPool[target]? = some dst ∧
      dst ∈ serversPool ∧
      selectBackend (sampleGlobals okClient) serversPool sampleRequest = Except.ok dst ∧
      frontendHandler (sampleGlobals okClient) serversPool ResponseWriter.fresh sampleRequest
        = (forward (sampleGlobals okClient) dst ResponseWriter.fresh sampleRequest).map
            Prod.fst ∧
      (forwardRequest (sampleGlobals okClient) dst sampleRequest).URL.Host = dst :=
  ⟨by decide,
   frontendHandler_index_in_range (sampleGlobals okClient) serversPool ResponseWriter.fresh
     sampleRequest (by decide)⟩

/-- Claim C3: for a fixed seed and an unchanged available pool, two requests
with the same URL path get the same routing index and the same backend,
whatever their method, query string, headers or body; the handler forwards
both to that backend. -/
theorem frontendHandler_same_path_same_backend (g : Globals) (availablePool : List String)
    (rw1 rw2 : ResponseWriter) (r1 r2 : Request) (hpath : r1.URL.Path = r2.URL.Path) :
    routingIndex g availablePool r1 = routingIndex g availablePool r2 ∧
    selectBackend g availablePool r1 = selectBackend g availablePool r2 ∧
    ∀ dst, selectBackend g availablePool r1 = Except.ok dst →
      frontendHandler g availablePool rw1 r1 = (forward g dst rw1 r1).map Prod.fst ∧
      frontendHandler g availablePool rw2 r2 = (forward g dst rw2 r2).map Prod.fst := by
  have hidx : routingIndex g availablePool r1 = routingIndex g availablePool r2 := by
    simp [routingIndex, hpath]
  have hsel : selectBackend g availablePool r1 = selectBackend g availablePool r2 := by
    simp [selectBackend, hidx]
  refine ⟨hidx, hsel, ?_⟩
  intro dst hdst
  have hdst2 : selectBackend g availablePool r2 = Except.ok dst := hsel ▸ hdst
  refine ⟨?_, ?_⟩
  · simp only [frontendHandler, hdst]
    cases forward g dst rw1 r1 with
    | error p => rfl
    | ok out => rfl
  · simp only [frontendHandler, hdst2]
    cases forward g dst rw2 r2 with
    | error p => rfl
    | ok out => rfl

/-- Witness of C3: a `GET` and a `POST` of the same path, with different query
strings, headers and bodies. -/
theorem frontendHandler_same_path_same_backend_witness :
    sampleRequest.URL.Path = sampleRequestPost.URL.Path ∧
    sampleRequest ≠ sampleRequestPost ∧
    routingIndex (sampleGlobals okClient) serversPool sampleRequest
      = routingIndex (sampleGlobals okClient) serversPool sampleRequestPost ∧
    selectBackend (sampleGlobals okClient) serversPool sampleRequest
      = selectBackend (sampleGlobals okClient) serversPool sampleRequestPost :=
  ⟨by decide, by decide,
   (frontendHandler_same_path_same_backend (sampleGlobals okClient) serversPool
      ResponseWriter.fresh ResponseWriter.fresh sampleRequest sampleRequestPost
      (by decide)).1,
   (frontendHandler_same_path_same_backend (sampleGlobals okClient) serversPool
      ResponseWriter.fresh ResponseWriter.fresh sampleRequest sampleRequestPost
      (by decide)).2.1⟩

/-! ## Availability pool -/

/-- Claim C4: starting from the initial pool built in `main` and applying any
finite sequence of probe updates for configured servers, the available pool
has no duplicate address and each of its elements is a configured server. -/
theorem availablePool_invariant (probes : List (String × Bool))
    (hcfg : ∀ u ∈ probes, u.1 ∈ serversPool) :
    (runProbes initialPool probes).Nodup ∧
    ∀ x ∈ runProbes initialPool probes, x ∈ serversPool := by
  have h := runProbes_inv serversPool probes initialPool hcfg
    (initialPool_eq ▸ serversPool_inv)
  exact h

/-- Witness of C4: `server2` fails a probe, recovers, and `server1` succeeds. -/
theorem availablePool_invariant_witness :
    (∀ u ∈ [("server2:8080", false), ("server2:8080", true), ("server1:8080", true)],
      u.1 ∈ serversPool) ∧
    (runProbes initialPool
      [("server2:8080", false), ("server2:8080", true), ("server1:8080", true)]).Nodup ∧
    ∀ x ∈ runProbes initialPool
      [("server2:8080", false), ("server2:8080", true), ("server1:8080", true)],
      x ∈ serversPool :=
  ⟨by decide,
   availablePool_invariant
     [("server2:8080", false), ("server2:8080", true), ("server1:8080", true)] (by decide)⟩

/-- Claim C5: after one probe update for `s` the pool contains `s` if and only
if the probe succeeded; a failed probe removes `s` and a successful probe
right after it re-admits `s`. -/
theorem probeUpdate_membership (pool : List String) (s : String) (ok : Bool) :
    (s ∈ probeUpdate pool s ok ↔ ok = true) ∧
    contains (probeUpdate pool s ok) s = ok ∧
    s ∉ probeUpdate pool s false ∧
    s ∈ probeUpdate (probeUpdate pool s false) s true := by
  have hfalse : ∀ p : List String, s ∉ probeUpdate p s false := by
    intro p hm
    simp only [probeUpdate, Bool.false_eq_true, if_false] at hm
    exact ((mem_removeElement p s s).mp hm).2 rfl
  have htrue : ∀ p : List String, s ∈ probeUpdate p s true := by
    intro p
    simp only [probeUpdate, if_true]
    by_cases hc : contains p s = true
    · simp only [hc, Bool.not_true, Bool.false_eq_true, if_false]
      exact (contains_eq_true_iff p s).mp hc
    · simp only [Bool.not_eq_true] at hc
      simp [hc]
  have hiff : s ∈ probeUpdate pool s ok ↔ ok = true := by
    cases ok with
    | false => simpa using hfalse pool
    | true => simpa using htrue pool
  refine ⟨hiff, ?_, hfalse pool, htrue _⟩
  cases ok with
  | true => exact (contains_eq_true_iff _ s).mpr (htrue pool)
  | false =>
    cases hc : contains (probeUpdate pool s false) s with
    | false => rfl
    | true => exact absurd ((contains_eq_true_iff _ s).mp hc) (hfalse pool)

/-- Claim C6: the probe update is idempotent: applying it twice in a row for
the same server and outcome gives the same pool (same elements, same order) as
applying it once, and so does any further repetition. -/
theorem probeUpdate_idempotent (pool : List String) (s : String) (ok : Bool) :
    probeUpdate (probeUpdate pool s ok) s ok = probeUpdate pool s ok ∧
    ∀ n : Nat, (fun p => probeUpdate p s ok)^[n + 1] pool = probeUpdate pool s ok := by
  have once : ∀ p : List String,
      probeUpdate (probeUpdate p s ok) s ok = probeUpdate p s ok := by
    intro p
    cases ok with
    | false =>
      simp only [probeUpdate, Bool.false_eq_true, if_false]
      simp [removeElement_eq_filter, List.filter_filter]
    | true =>
      have hm : contains (probeUpdate p s true) s = true := by
        simp only [probeUpdate, if_true]
        by_cases hc : contains p s = true
        · simp [hc]
        · simp only [Bool.not_eq_true] at hc
          simp [hc, contains_eq_true_iff]
      show (if true = true then
              (if (!contains (probeUpdate p s true) s) = true
                then probeUpdate p s true ++ [s] else probeUpdate p s true)
            else removeElement (probeUpdate p s true) s) = probeUpdate p s true
      simp [hm]
  refine ⟨once pool, ?_⟩
  intro n
  induction n with
  | zero => rfl
  | succ k ih =>
    rw [Function.iterate_succ_apply', ih]
    exact once pool

/-- Claim C10: `removeElement(slice, value)` returns exactly the elements of
`slice` that differ from `value`, in their original order; the result does not
contain `value`, and it is `slice` itself when `value` does not occur in it. -/
theorem removeElement_spec (slice : List String) (value : String) :
    removeElement slice value = slice.filter (fun item => decide (item ≠ value)) ∧
    value ∉ removeElement slice value ∧
    (value ∉ slice → removeElement slice value = slice) := by
  refine ⟨?_, ?_, ?_⟩
  · rw [removeElement_eq_filter]
    congr 1
    funext item
    by_cases h : item = value <;> simp [h]
  · intro hm
    exact ((mem_removeElement slice value value).mp hm).2 rfl
  · intro hnot
    rw [removeElement_eq_filter, List.filter_eq_self]
    intro a ha
    have hne : a ≠ value := fun e => hnot (e ▸ ha)
    simp [hne]

/-! ## Health probe -/

/-- Claim C7: for every backend address and every outcome of the health
request, `health(dst)` is true if and only if the client returned no error and
the status code of the response is exactly 200. -/
theorem health_true_iff (g : Globals) (dst : String) :
    health g dst = true ↔
      (g.Do (healthRequest g dst)).2 = none ∧
      (g.Do (healthRequest g dst)).1.StatusCode = 200 := by
  unfold health
  cases hdo : g.Do (healthRequest g dst) with
  | mk resp err =>
    cases err with
    | none =>
      by_cases hc : resp.StatusCode = 200
      · simp [hc]
      · simp [hc]
    | some e => simp

/-! ## Forwarding -/

/-- Claim C8, as amended: for every backend address and every upstream
response obtained without transport error whose status code lies between 100
and 999, with a header map as the client returns it, `forward` on a fresh
response writer returns nil, sends the upstream status code, and sends, for
every key of the upstream header map other than `lb-from`, exactly the
upstream values of that key in their order; with tracing enabled the `lb-from`
header sent holds the single value `dst`, whatever the upstream sent. -/
theorem forward_relays_response (g : Globals) (dst : String) (r : Request) (resp : Response)
    (hdo : g.Do (forwardRequest g dst r) = (resp, none))
    (hlo : 100 ≤ resp.StatusCode) (hhi : resp.StatusCode ≤ 999)
    (hH : resp.Header.WellFormed) :
    ∃ out : ResponseWriter,
      forward g dst ResponseWriter.fresh r = Except.ok (out, none) ∧
      out.wroteHeader = true ∧
      out.statusCode = resp.StatusCode ∧
      HeadersRelayed resp.Header out.sentHeader ∧
      (g.traceEnabled = true → out.sentHeader.Values "lb-from" = [dst]) := by
  have hkeys := Header.WellFormed.canonical_nodup resp.Header hH
  have hcopy : ∀ e ∈ resp.Header.entries,
      (copyHeaders resp.Header.entries Header.empty).lookup (CanonicalMIMEHeaderKey e.1)
        = e.2 := by
    intro e he
    rw [copyHeaders_lookup_mem resp.Header.entries Header.empty hkeys e he]
    simp [Header.empty, Header.lookup, lookupEntries]
  have hfw := forward_ok_eq g dst r resp hdo hlo hhi _ rfl
  obtain ⟨h1, h2, h3⟩ := ioCopy_sent (ResponseWriter.commit
      { ResponseWriter.fresh with
          header := if g.traceEnabled = true
            then (copyHeaders resp.Header.entries Header.empty).Set "lb-from" dst
            else copyHeaders resp.Header.entries Header.empty }
      resp.StatusCode) resp.Body
      (by simp [ResponseWriter.commit, ResponseWriter.fresh])
  refine ⟨_, hfw, h1, ?_, ?_, ?_⟩
  · rw [h2]; simp [ResponseWriter.commit, ResponseWriter.fresh]
  · intro e he hne
    show Header.Values _ e.1 = e.2
    rw [h3]
    have hc := hcopy e he
    cases ht : g.traceEnabled with
    | false =>
      simpa [ResponseWriter.commit, ResponseWriter.fresh, Header.Values, ht] using hc
    | true =>
      simp only [ResponseWriter.commit, ResponseWriter.fresh, Header.Values,
        Header.Set, Header.lookup_store, Bool.false_eq_true, if_false, if_true,
        if_neg hne]
      exact hc
  · intro ht
    show Header.Values _ "lb-from" = [dst]
    rw [h3]
    simp [ResponseWriter.commit, ResponseWriter.fresh, Header.Values,
      Header.Set, Header.lookup_store, ht]

/-- Witness of C8 as amended: an upstream answering 200 with two values of
`X-Test` and an `Lb-From` header of its own, tracing enabled. -/
theorem forward_relays_response_witness :
    ∃ out : ResponseWriter,
      forward (sampleGlobals tracedClient) "server1:8080" ResponseWriter.fresh sampleRequest
        = Except.ok (out, none) ∧
      out.wroteHeader = true ∧
      out.statusCode = 200 ∧
      HeadersRelayed ⟨[("X-Test", ["value", "other"]), ("Lb-From", ["spoofed"])]⟩
        out.sentHeader ∧
      ((sampleGlobals tracedClient).traceEnabled = true →
        out.sentHeader.Values "lb-from" = ["server1:8080"]) :=
  forward_relays_response (sampleGlobals tracedClient) "server1:8080" sampleRequest
    { StatusCode := 200,
      Header := ⟨[("X-Test", ["value", "other"]), ("Lb-From", ["spoofed"])]⟩,
      Body := { data := "hello", readErr := none } }
    rfl (by decide) (by decide) ⟨by decide, by decide⟩

/-- Counterexample to C8 as stated: an upstream response obtained without
transport error, with a well-formed header map and the status code 99 (status
line `HTTP/1.1 099`).  `rw.WriteHeader(99)` panics at line 93, so `forward`
returns no error value and sends no status. -/
theorem forward_status_99_panics :
    (status99Client (forwardRequest (sampleGlobals status99Client) "server1:8080"
      sampleRequest)).2 = none ∧
    (status99Client sampleRequest).1.StatusCode = 99 ∧
    (status99Client sampleRequest).1.Header.WellFormed ∧
    forward (sampleGlobals status99Client) "server1:8080" ResponseWriter.fresh sampleRequest
      = Except.error Panic.invalidWriteHeaderCode ∧
    ¬ ∃ out : ResponseWriter × Option GoError,
      forward (sampleGlobals status99Client) "server1:8080" ResponseWriter.fresh
        sampleRequest = Except.ok out := by
  refine ⟨rfl, rfl, ⟨by decide, by decide⟩, rfl, ?_⟩
  rintro ⟨out, h⟩
  have hp : forward (sampleGlobals status99Client) "server1:8080" ResponseWriter.fresh
      sampleRequest = Except.error Panic.invalidWriteHeaderCode := rfl
  rw [hp] at h
  cases h

/-- Claim C9: when the outbound call fails with an error, `forward` returns
that error, sends status 503 and adds no header: the header map of the writer
and the headers sent are those the writer had before the call, and no body is
written. -/
theorem forward_error (g : Globals) (dst : String) (rw : ResponseWriter) (r : Request)
    (resp : Response) (e : GoError)
    (hdo : g.Do (forwardRequest g dst r) = (resp, some e))
    (hw : rw.wroteHeader = false) :
    ∃ out : ResponseWriter,
      forward g dst rw r = Except.ok (out, some e) ∧
      out.wroteHeader = true ∧
      out.statusCode = 503 ∧
      out.header = rw.header ∧
      out.sentHeader = rw.header ∧
      out.body = rw.body := by
  have hwh := ResponseWriter.WriteHeader_valid rw 503 hw (by decide) (by decide)
  refine ⟨rw.commit 503, ?_, ?_⟩
  · simp only [forward, hdo, hwh]
  · simp [ResponseWriter.commit, hw]

/-- Witness of C9: the `forward error` case of `TestForward` with tracing
enabled; the response sent is a 503 with no header at all. -/
theorem forward_error_witness :
    ∃ out : ResponseWriter,
      forward (sampleGlobals failingClient) "server1:8080" ResponseWriter.fresh sampleRequest
        = Except.ok (out, some ⟨"http: Handler timeout"⟩) ∧
      out.wroteHeader = true ∧
      out.statusCode = 503 ∧
      out.header = Header.empty ∧
      out.sentHeader = Header.empty ∧
      out.body = "" :=
  forward_error (sampleGlobals failingClient) "server1:8080" ResponseWriter.fresh
    sampleRequest
    { StatusCode := 0, Header := Header.empty, Body := { data := "", readErr := none } }
    ⟨"http: Handler timeout"⟩ rfl rfl

end Balancer
